import Mathlib

/-!
The sample SCP client of libssh, `examples/libssh_scp.c`

A shallow embedding of `parse_location`, `connect_ssh`, `open_location`,
`do_copy` and `main` of `examples/libssh_scp.c`, and theorems about them.

Conventions of the embedding.

* A C string is the list of its characters before the terminating NUL
  (`CString`); `strchr` returns the offset of the first occurrence.
* The library and libc calls made by the program are the boundary of the
  embedding.  Every call is recorded, in program order, as an `Event`; what a
  call answers is read from an oracle carried by the handle (or by `Sys` for
  the calls that create handles).  An oracle is a stream `Nat → answer` whose
  entry `0` is the answer to the next call; a call shifts the stream.
* `int` is 32 bits wide, two's complement: `to_int` is the conversion.
* The two loops of `do_copy` take fuel, a bound on the number of turns; a loop
  still turning when the fuel ends leaves with `out_of_fuel`, and the trace
  holds the calls made until then.
-/

namespace LibsshScp

/-! ## Data model -/

/-- A C string: the characters before the terminating NUL. -/
abbrev CString := List Char

/-- One `char` of the transfer buffer. -/
abbrev Byte := Fin 256

/-- Conversion of an integer value to a 32-bit two's complement `int`. -/
def to_int (x : Int) : Int := (x + 2147483648) % 4294967296 - 2147483648

/-- Drop the answer just consumed from an oracle stream. -/
def shift {α : Type} (f : Nat → α) : Nat → α := fun i => f (i + 1)

/-- What `ssh_scp_pull_request` returns.  `newfile` carries what the
getters `ssh_scp_request_get_filename`, `ssh_scp_request_get_size` (a
`size_t`) and `ssh_scp_request_get_permissions` answer for that request;
`other` is any return value that is none of `SSH_SCP_REQUEST_NEWDIR`,
`SSH_SCP_REQUEST_NEWFILE`, `SSH_ERROR` (end of requests, warning). -/
inductive request where
  | newdir
  | newfile (filename : CString) (size : Nat) (mode : Nat)
  | error
  | other (code : Int)
deriving DecidableEq, Repr

/-- An `ssh_scp` channel, seen from the program: the answers the library will
give to the coming calls on it. -/
structure ssh_scp where
  /-- answers of `ssh_scp_pull_request` -/
  requests : Nat → request
  /-- answers of `ssh_scp_read`: the bytes delivered, `none` for `SSH_ERROR` -/
  reads : Nat → Option (List Byte)
  /-- does `ssh_scp_push_file` succeed -/
  push_ok : Nat → Bool
  /-- does `ssh_scp_write` succeed -/
  write_ok : Nat → Bool
  /-- does `ssh_scp_close` succeed -/
  close_ok : Nat → Bool

/-- A `FILE *`: the `fstat` data of the file, its unread content, and the
answers of the coming `fread` / `fwrite` calls. -/
structure FILE where
  st_size : Nat
  st_mode : Nat
  /-- content not yet read -/
  data : List Byte
  /-- most bytes the coming `fread` calls deliver (a short read when smaller
  than what is asked; libc on a regular file always delivers all it can) -/
  avail : Nat → Nat
  /-- does the coming `fwrite` succeed -/
  write_ok : Nat → Bool

/-- An `ssh_session`. -/
structure ssh_session where
  id : Nat
deriving DecidableEq, Repr

/-- The `struct location` of the program. -/
structure location where
  is_ssh : Int
  user : Option CString
  host : Option CString
  path : CString
  session : Option ssh_session
  scp : Option ssh_scp
  file : Option FILE

/-- The calls the program makes, in the order it makes them. -/
inductive Event where
  | connect (host : Option CString) (user : Option CString)
  | disconnect
  | scp_new (write : Bool) (path : CString)
  | scp_init
  | fopen (path : CString) (write : Bool)
  | chdir (path : CString)
  | fstat
  | pull_request
  | deny_request (reason : CString)
  | accept_request
  | push_file (filename : CString) (size : Int) (mode : Nat)
  | scp_read (maxlen : Nat)
  | fread (maxlen : Nat)
  | scp_write (data : List Byte)
  | fwrite (data : List Byte)
  | wrote (total : Int)
  | scp_close
  | scp_free
  | fclose
deriving DecidableEq, Repr

/-! ## `parse_location` -/

/-- The libc function `strchr(s, c)`: offset of the first occurrence of `c`,
`none` for `NULL`. -/
def strchr : CString → Char → Option Nat
  | [], _ => none
  | x :: xs, c => if x = c then some 0 else (strchr xs c).map (· + 1)

/-- The function `parse_location` (lines 127-150).  `*ptr = 0` cuts the string at `ptr`;
the handles are not set by the function. -/
def parse_location (loc : CString) : location :=
  match strchr loc ':' with
  | some i =>
    let path := loc.drop (i + 1)
    let loc1 := loc.take i
    match strchr loc1 '@' with
    | some j =>
      { is_ssh := 1, path := path, host := some (loc1.drop (j + 1)),
        user := some (loc1.take j), session := none, scp := none, file := none }
    | none =>
      { is_ssh := 1, path := path, host := some loc1, user := none,
        session := none, scp := none, file := none }
  | none =>
    { is_ssh := 0, path := loc, host := none, user := none,
      session := none, scp := none, file := none }

/-! ## Library and libc calls -/

/-- Modelled from the spec: `ssh_basename` is a libssh helper that is not part
of this file; the spec describes its result as "path's final path component",
that is what follows the last `/`. -/
def ssh_basename (path : CString) : CString :=
  (path.reverse.takeWhile (fun c => c ≠ '/')).reverse

/-- The call `fread(buffer, 1, maxlen, f)`: the bytes delivered and the file
after. -/
def fread (f : FILE) (maxlen : Nat) : List Byte × FILE :=
  let k := min maxlen (f.avail 0)
  (f.data.take k, { f with data := f.data.drop k, avail := shift f.avail })

/-- The call `fwrite(buffer, r, 1, f)`: the number of items written (`1` or `0`; `0`
when the item size `r` is zero) and the file after. -/
def fwrite (f : FILE) (r : Nat) : Int × FILE :=
  ((if r = 0 then 0 else if f.write_ok 0 then 1 else 0),
    { f with write_ok := shift f.write_ok })

/-- Result of `authenticate_console`. -/
inductive auth_result where
  | success
  | denied
  | other
deriving DecidableEq, Repr

/-- What the calls made by one `connect_ssh` answer. -/
structure connect_answers where
  set_username_ok : Bool
  set_host_ok : Bool
  connect_ok : Bool
  knownhost_ok : Bool
  auth : auth_result
  session : ssh_session

/-- Result of `fopen`: a stream, or `NULL` with `errno == EISDIR`, or `NULL`
with another `errno`. -/
inductive fopen_result where
  | ok (f : FILE)
  | eisdir
  | fail

/-- The operating system and the network: answers to the coming calls that
create handles. -/
structure Sys where
  fopen : Nat → CString → Bool → fopen_result
  chdir : Nat → CString → Bool
  connect : Nat → connect_answers
  scp_new : Nat → Option ssh_scp
  scp_init : Nat → Bool

/-- The reason given when a directory request is denied (line 231). -/
def not_recursive : CString := "Not in recursive mode".toList

/-- The reason given when the local file cannot be opened (line 262). -/
def cannot_open : CString := "Cannot open local file".toList

/-! ## `connect_ssh` and `open_location` -/

/-- How a call of a function of the program ends: it returns, or it
dereferences a handle that is `NULL`, or it is still in a loop when the fuel
ends. -/
inductive outcome where
  | returned (code : Int)
  | crashed
  | out_of_fuel
deriving DecidableEq, Repr

/-- Result of the first part of `do_copy`: `size`, `mode` and `filename` are
set (the request loop is left by the `break` of `NEWFILE`, or the source is
local); `return -1` (on `SSH_ERROR`); a `NULL` handle; the request loop is
still turning when the fuel ends. -/
inductive resolved where
  | ok (size : Int) (mode : Int) (filename : CString)
  | fail
  | crashed
  | out_of_fuel
deriving DecidableEq, Repr

/-- The request loop of `do_copy` (lines 228-245) on the source channel:
the events, the channel after, and how the loop is left. -/
def pull_loop : Nat → ssh_scp → List Event × ssh_scp × resolved
  | 0, scp => ([], scp, resolved.out_of_fuel)
  | fuel + 1, scp =>
    let scp1 := { scp with requests := shift scp.requests }
    match scp.requests 0 with
    | request.newdir =>
      (Event.pull_request :: Event.deny_request not_recursive :: (pull_loop fuel scp1).1,
        (pull_loop fuel scp1).2)
    | request.newfile filename size mode =>
      ([Event.pull_request], scp1, resolved.ok (to_int size) (to_int mode) filename)
    | request.error => ([Event.pull_request], scp1, resolved.fail)
    | request.other _ =>
      (Event.pull_request :: (pull_loop fuel scp1).1, (pull_loop fuel scp1).2)

/-- The first part of `do_copy`, "Get the file name and size" (lines 220-246). -/
def resolve (fuel : Nat) (src : location) : List Event × location × resolved :=
  if src.is_ssh = 0 then
    match src.file with
    | none => ([], src, resolved.crashed)
    | some f =>
      ([Event.fstat], src,
        resolved.ok (to_int f.st_size) (to_int f.st_mode) (ssh_basename src.path))
  else
    match src.scp with
    | none => ([], src, resolved.crashed)
    | some ch =>
      ((pull_loop fuel ch).1, { src with scp := some (pull_loop fuel ch).2.1 },
        (pull_loop fuel ch).2.2)

/-- Result of the second part of `do_copy`. -/
inductive prepared where
  | ok
  | fail
  | crashed
deriving DecidableEq, Repr

/-- Preparation of the destination (lines 248-269). -/
def prepare (sys : Sys) (src dest : location) (size : Int) (filename : CString) :
    List Event × Sys × location × prepared :=
  if dest.is_ssh ≠ 0 then
    match dest.scp with
    | none => ([], sys, dest, prepared.crashed)
    | some ch =>
      let dest1 := { dest with scp := some { ch with push_ok := shift ch.push_ok } }
      if ch.push_ok 0 then ([Event.push_file src.path size 420], sys, dest1, prepared.ok)
      else ([Event.push_file src.path size 420, Event.scp_free], sys, dest1, prepared.fail)
  else
    match dest.file with
    | some _ =>
      ((if src.is_ssh ≠ 0 then [Event.accept_request] else []), sys, dest, prepared.ok)
    | none =>
      let sys1 := { sys with fopen := shift sys.fopen }
      match sys.fopen 0 filename true with
      | fopen_result.ok f =>
        (Event.fopen filename true :: (if src.is_ssh ≠ 0 then [Event.accept_request] else []),
          sys1, { dest with file := some f }, prepared.ok)
      | _ =>
        (Event.fopen filename true ::
            (if src.is_ssh ≠ 0 then [Event.deny_request cannot_open] else []),
          sys1, dest, prepared.fail)

/-- Result of reading one chunk (lines 271-285). -/
inductive read_result where
  | chunk (buffer : List Byte)
  | eof
  | error
  | crashed
deriving DecidableEq, Repr

/-- The read half of the loop body (lines 271-285); the buffer holds 16384
bytes and the library delivers at most what is asked. -/
def read_chunk (src : location) : List Event × location × read_result :=
  if src.is_ssh ≠ 0 then
    match src.scp with
    | none => ([], src, read_result.crashed)
    | some ch =>
      let src1 := { src with scp := some { ch with reads := shift ch.reads } }
      match ch.reads 0 with
      | none => ([Event.scp_read 16384], src1, read_result.error)
      | some c => ([Event.scp_read 16384], src1, read_result.chunk (c.take 16384))
  else
    match src.file with
    | none => ([], src, read_result.crashed)
    | some f =>
      let x := fread f 16384
      let src1 := { src with file := some x.2 }
      if x.1.length = 0 then ([Event.fread 16384], src1, read_result.eof)
      else ([Event.fread 16384], src1, read_result.chunk x.1)

/-- Result of writing one chunk (lines 286-300). -/
inductive write_result where
  | ok
  | error
  | crashed
deriving DecidableEq, Repr

/-- The write half of the loop body (lines 286-300). -/
def write_chunk (dest : location) (buffer : List Byte) : List Event × location × write_result :=
  if dest.is_ssh ≠ 0 then
    match dest.scp with
    | none => ([], dest, write_result.crashed)
    | some ch =>
      if ch.write_ok 0 then
        ([Event.scp_write buffer],
          { dest with scp := some { ch with write_ok := shift ch.write_ok } }, write_result.ok)
      else
        ([Event.scp_write buffer, Event.scp_free], { dest with scp := none },
          write_result.error)
  else
    match dest.file with
    | none => ([], dest, write_result.crashed)
    | some f =>
      let x := fwrite f buffer.length
      let dest1 := { dest with file := some x.2 }
      if x.1 ≤ 0 then ([Event.fwrite buffer], dest1, write_result.error)
      else ([Event.fwrite buffer], dest1, write_result.ok)

/-- How the transfer loop is left: by its condition or the `break`, with the
value of `total`; by a `return -1`; by a `NULL` handle; not before the fuel
ends. -/
inductive loop_exit where
  | finished (total : Int)
  | error
  | crashed
  | out_of_fuel
deriving DecidableEq, Repr

/-- The transfer loop `do ... while(total < size)` (lines 270-303). -/
def transfer_loop (size : Int) :
    Nat → location → location → Int → List Event × location × location × loop_exit
  | 0, src, dest, _ => ([], src, dest, loop_exit.out_of_fuel)
  | fuel + 1, src, dest, total =>
    match read_chunk src with
    | (es, src1, read_result.crashed) => (es, src1, dest, loop_exit.crashed)
    | (es, src1, read_result.error) => (es, src1, dest, loop_exit.error)
    | (es, src1, read_result.eof) => (es, src1, dest, loop_exit.finished total)
    | (es, src1, read_result.chunk buffer) =>
      match write_chunk dest buffer with
      | (es2, dest1, write_result.crashed) => (es ++ es2, src1, dest1, loop_exit.crashed)
      | (es2, dest1, write_result.error) => (es ++ es2, src1, dest1, loop_exit.error)
      | (es2, dest1, write_result.ok) =>
        let total1 := to_int (total + buffer.length)
        if total1 < size then
          (es ++ es2 ++ (transfer_loop size fuel src1 dest1 total1).1,
            (transfer_loop size fuel src1 dest1 total1).2)
        else (es ++ es2, src1, dest1, loop_exit.finished total1)

/-- The end of `do_copy` (lines 304-317). -/
def finalize (dest : location) (total : Int) : List Event × location × outcome :=
  if dest.is_ssh ≠ 0 then
    match dest.scp with
    | none => ([Event.wrote total], dest, outcome.crashed)
    | some ch =>
      if ch.close_ok 0 then
        ([Event.wrote total, Event.scp_close],
          { dest with scp := some { ch with close_ok := shift ch.close_ok } },
          outcome.returned 0)
      else
        ([Event.wrote total, Event.scp_close, Event.scp_free], { dest with scp := none },
          outcome.returned (-1))
  else
    match dest.file with
    | none => ([Event.wrote total], dest, outcome.crashed)
    | some _ =>
      ([Event.wrote total, Event.fclose], { dest with file := none }, outcome.returned 0)

/-- What a call of `do_copy` leaves behind. -/
structure copy_result where
  out : outcome
  src : location
  dest : location
  sys : Sys
  trace : List Event

/-- The function `do_copy` (lines 210-318). -/
def do_copy (fuel : Nat) (sys : Sys) (src dest : location) : copy_result :=
  match resolve fuel src with
  | (es1, src1, resolved.out_of_fuel) => ⟨outcome.out_of_fuel, src1, dest, sys, es1⟩
  | (es1, src1, resolved.crashed) => ⟨outcome.crashed, src1, dest, sys, es1⟩
  | (es1, src1, resolved.fail) => ⟨outcome.returned (-1), src1, dest, sys, es1⟩
  | (es1, src1, resolved.ok size _ filename) =>
    match prepare sys src1 dest size filename with
    | (es2, sys2, dest2, prepared.crashed) => ⟨outcome.crashed, src1, dest2, sys2, es1 ++ es2⟩
    | (es2, sys2, dest2, prepared.fail) =>
      ⟨outcome.returned (-1), src1, dest2, sys2, es1 ++ es2⟩
    | (es2, sys2, dest2, prepared.ok) =>
      match transfer_loop size fuel src1 dest2 0 with
      | (es3, src3, dest3, loop_exit.out_of_fuel) =>
        ⟨outcome.out_of_fuel, src3, dest3, sys2, es1 ++ es2 ++ es3⟩
      | (es3, src3, dest3, loop_exit.crashed) =>
        ⟨outcome.crashed, src3, dest3, sys2, es1 ++ es2 ++ es3⟩
      | (es3, src3, dest3, loop_exit.error) =>
        ⟨outcome.returned (-1), src3, dest3, sys2, es1 ++ es2 ++ es3⟩
      | (es3, src3, dest3, loop_exit.finished total) =>
        match finalize dest3 total with
        | (es4, dest4, out) => ⟨out, src3, dest4, sys2, es1 ++ es2 ++ es3 ++ es4⟩

/-! ## `main` -/

/-- The bytes handed to `fwrite`, in order. -/
def fwrite_data : List Event → List Byte
  | [] => []
  | Event.fwrite d :: es => d ++ fwrite_data es
  | _ :: es => fwrite_data es

/-- The totals printed by `printf("wrote %d bytes\n", total)`. -/
def wrote_totals : List Event → List Int
  | [] => []
  | Event.wrote t :: es => t :: wrote_totals es
  | _ :: es => wrote_totals es


/-- The events of the transfer loop and of the end of `do_copy`. -/
def Event.after_prepare : Event → Bool
  | Event.scp_read _ => true
  | Event.fread _ => true
  | Event.scp_write _ => true
  | Event.fwrite _ => true
  | Event.scp_free => true
  | Event.wrote _ => true
  | Event.scp_close => true
  | Event.fclose => true
  | _ => false

/-- The events of the request loop. -/
def Event.polling : Event → Bool
  | Event.pull_request => true
  | Event.deny_request r => r = not_recursive
  | _ => false

/-- The arguments of the `ssh_scp_push_file` calls, in order. -/
def push_calls : List Event → List (CString × Int × Nat)
  | [] => []
  | Event.push_file n s m :: es => (n, s, m) :: push_calls es
  | _ :: es => push_calls es

/-- The chunks handed to `fwrite` and `ssh_scp_write`, in order. -/
def chunks_written : List Event → List (List Byte)
  | [] => []
  | Event.fwrite d :: es => d :: chunks_written es
  | Event.scp_write d :: es => d :: chunks_written es
  | _ :: es => chunks_written es

/-- The number of `ssh_scp_read` calls. -/
def scp_reads : List Event → Nat
  | [] => 0
  | Event.scp_read _ :: es => scp_reads es + 1
  | _ :: es => scp_reads es

/-- The events of the first `k` turns of the request loop, none of which meets
`NEWFILE` or `SSH_ERROR`. -/
def poll_events (requests : Nat → request) : Nat → List Event
  | 0 => []
  | k + 1 =>
    (match requests 0 with
      | request.newdir => [Event.pull_request, Event.deny_request not_recursive]
      | _ => [Event.pull_request]) ++ poll_events (shift requests) k

/-- A request that keeps the request loop turning. -/
def request.skipped : request → Bool
  | request.newdir => true
  | request.other _ => true
  | _ => false

/-- The events of a transfer from a channel to a local file that delivers the
chunks `cs`. -/
def pull_events : List (List Byte) → List Event
  | [] => []
  | c :: cs => Event.scp_read 16384 :: Event.fwrite c :: pull_events cs

/-- The number of bytes in a list of chunks. -/
def chunks_length : List (List Byte) → Nat
  | [] => 0
  | c :: cs => c.length + chunks_length cs

/-- The events of `k` directory requests, each denied before the next poll. -/
def dir_denials : Nat → List Event
  | 0 => []
  | k + 1 => Event.pull_request :: Event.deny_request not_recursive :: dir_denials k

/-! ## Concrete inputs -/

/-- A regular file with the given content whose reads deliver all they can and
whose writes succeed. -/
def regular_file (data : List Byte) : FILE :=
  ⟨data.length, 420, data, fun _ => 16384, fun _ => true⟩

/-- A local location with the given handle. -/
def local_at (path : CString) (file : Option FILE) : location :=
  ⟨0, none, none, path, none, none, file⟩

/-- A remote location (on host `h`) with the given channel. -/
def remote_at (path : CString) (scp : Option ssh_scp) : location :=
  ⟨1, none, some "h".toList, path, some ⟨0⟩, scp, none⟩

/-- A channel whose pushes, writes and closes succeed. -/
def channel (requests : Nat → request) (reads : Nat → Option (List Byte)) : ssh_scp :=
  ⟨requests, reads, fun _ => true, fun _ => true, fun _ => true⟩

/-- The bytes of "hello". -/
def hello : List Byte := [104, 101, 108, 108, 111]

/-- A system on which `a` holds the bytes 1, 2, 3, every other file read holds
4, 5, and every file opens for writing. -/
def sys_files : Sys :=
  { fopen := fun _ p w =>
      if w then fopen_result.ok (regular_file [])
      else if p = "a".toList then fopen_result.ok (regular_file [1, 2, 3])
      else fopen_result.ok (regular_file [4, 5]),
    chdir := fun _ _ => true,
    connect := fun _ => ⟨true, true, true, true, auth_result.success, ⟨0⟩⟩,
    scp_new := fun _ => none,
    scp_init := fun _ => true }

/-- A system on which no file opens. -/
def sys_closed : Sys := { sys_files with fopen := fun _ _ _ => fopen_result.fail }

/-- A peer that announces `a.txt` of size `2^31`, and whose reads deliver
"hello". -/
def big_peer : ssh_scp :=
  channel (fun _ => request.newfile "a.txt".toList 2147483648 420) (fun _ => some hello)

/-- The peer of the spec: a directory, then `a.txt` of size 5, then "hello". -/
def hello_peer : ssh_scp :=
  channel (fun i => if i = 0 then request.newdir else request.newfile "a.txt".toList 5 420)
    (fun _ => some hello)

/-- A peer that answers every request poll with end of requests. -/
def eof_peer : ssh_scp := channel (fun _ => request.other 3) (fun _ => some hello)

/-- A peer that answers end of requests and then, to every further poll,
`SSH_ERROR`. -/
def eof_then_error_peer : ssh_scp :=
  channel (fun i => if i = 0 then request.other 3 else request.error) (fun _ => none)

/-- A file holding the bytes 1, 2, 3 whose reads deliver at most 2 bytes. -/
def short_reads_file : FILE := ⟨3, 420, [1, 2, 3], fun _ => 2, fun _ => true⟩

/-- A regular file of `2^31` zero bytes. -/
def huge_file : FILE :=
  ⟨2147483648, 420, List.replicate 2147483648 0, fun _ => 16384, fun _ => true⟩

theorem strchr_append_cons (h : CString) (c : Char) (p : CString) (hc : c ∉ h) :
    strchr (h ++ c :: p) c = some h.length := by
  induction h with
  | nil => simp [strchr]
  | cons x xs ih =>
    have hx : x ≠ c := fun e => hc (by simp [e])
    have hxs : c ∉ xs := fun e => hc (by simp [e])
    simp [strchr, hx, ih hxs]

theorem strchr_eq_none_iff (s : CString) (c : Char) : strchr s c = none ↔ c ∉ s := by
  induction s with
  | nil => simp [strchr]
  | cons x xs ih =>
    by_cases hx : x = c
    · simp [strchr, hx]
    · have hx2 : ¬ c = x := fun e => hx e.symm
      simp [strchr, hx, hx2, ih]

theorem parse_location_of_colon (a p : CString) (ha : ':' ∉ a) :
    parse_location (a ++ ':' :: p) =
      match strchr a '@' with
      | some j =>
        { is_ssh := 1, path := p, host := some (a.drop (j + 1)),
          user := some (a.take j), session := none, scp := none, file := none }
      | none =>
        { is_ssh := 1, path := p, host := some a, user := none,
          session := none, scp := none, file := none } := by
  unfold parse_location
  rw [strchr_append_cons a ':' p ha]
  simp

/-- C1: a token `u@h:p` or `h:p`, with neither `@` nor `:` in `u` and `h`, is
parsed as remote with path `p` (all that follows the first `:`), host `h`,
and user `u` for the first form, no user for the second. -/
theorem parse_location_remote (u h p : CString)
    (hu : ∀ c ∈ u, c ≠ '@' ∧ c ≠ ':') (hh : ∀ c ∈ h, c ≠ '@' ∧ c ≠ ':') :
    ((parse_location (u ++ '@' :: (h ++ ':' :: p))).is_ssh = 1 ∧
      (parse_location (u ++ '@' :: (h ++ ':' :: p))).path = p ∧
      (parse_location (u ++ '@' :: (h ++ ':' :: p))).host = some h ∧
      (parse_location (u ++ '@' :: (h ++ ':' :: p))).user = some u) ∧
    ((parse_location (h ++ ':' :: p)).is_ssh = 1 ∧
      (parse_location (h ++ ':' :: p)).path = p ∧
      (parse_location (h ++ ':' :: p)).host = some h ∧
      (parse_location (h ++ ':' :: p)).user = none) := by
  have hu1 : '@' ∉ u := fun e => (hu _ e).1 rfl
  have hu2 : ':' ∉ u := fun e => (hu _ e).2 rfl
  have hh1 : '@' ∉ h := fun e => (hh _ e).1 rfl
  have hh2 : ':' ∉ h := fun e => (hh _ e).2 rfl
  constructor
  · have e : u ++ '@' :: (h ++ ':' :: p) = (u ++ '@' :: h) ++ ':' :: p := by simp
    have hc : ':' ∉ u ++ '@' :: h := by simp [hu2, hh2]
    rw [e, parse_location_of_colon _ _ hc, strchr_append_cons u '@' h hu1]
    simp
  · rw [parse_location_of_colon _ _ hh2, (strchr_eq_none_iff h '@').2 hh1]
    simp

/-- An instance of C1: the tokens `u@h:a:b@c` and `h:a:b@c`. -/
theorem parse_location_remote_witness :
    ((parse_location ("u".toList ++ '@' :: ("h".toList ++ ':' :: "a:b@c".toList))).is_ssh = 1 ∧
      (parse_location ("u".toList ++ '@' :: ("h".toList ++ ':' :: "a:b@c".toList))).path
        = "a:b@c".toList ∧
      (parse_location ("u".toList ++ '@' :: ("h".toList ++ ':' :: "a:b@c".toList))).host
        = some "h".toList ∧
      (parse_location ("u".toList ++ '@' :: ("h".toList ++ ':' :: "a:b@c".toList))).user
        = some "u".toList) ∧
    ((parse_location ("h".toList ++ ':' :: "a:b@c".toList)).is_ssh = 1 ∧
      (parse_location ("h".toList ++ ':' :: "a:b@c".toList)).path = "a:b@c".toList ∧
      (parse_location ("h".toList ++ ':' :: "a:b@c".toList)).host = some "h".toList ∧
      (parse_location ("h".toList ++ ':' :: "a:b@c".toList)).user = none) :=
  parse_location_remote "u".toList "h".toList "a:b@c".toList (by decide) (by decide)

/-- C2: a token without `:` is parsed as local, its path the whole token, with
neither user nor host; and a token is parsed as local only when it has no
`:`. -/
theorem parse_location_local (t : CString) :
    (':' ∉ t →
      (parse_location t).is_ssh = 0 ∧ (parse_location t).path = t ∧
      (parse_location t).user = none ∧ (parse_location t).host = none) ∧
    ((parse_location t).is_ssh = 0 ↔ ':' ∉ t) := by
  have key : ':' ∉ t →
      (parse_location t).is_ssh = 0 ∧ (parse_location t).path = t ∧
      (parse_location t).user = none ∧ (parse_location t).host = none := by
    intro h
    unfold parse_location
    rw [(strchr_eq_none_iff t ':').2 h]
    simp
  refine ⟨key, ?_, fun h => (key h).1⟩
  intro h0 hmem
  cases hs : strchr t ':' with
  | none => exact (strchr_eq_none_iff t ':').1 hs hmem
  | some i =>
    unfold parse_location at h0
    rw [hs] at h0
    simp only at h0
    split at h0 <;> simp at h0

/-- An instance of C2: the token `a@b`. -/
theorem parse_location_local_witness :
    ':' ∉ "a@b".toList ∧
    (parse_location "a@b".toList).is_ssh = 0 ∧ (parse_location "a@b".toList).path = "a@b".toList ∧
      (parse_location "a@b".toList).user = none ∧ (parse_location "a@b".toList).host = none :=
  ⟨by decide, (parse_location_local "a@b".toList).1 (by decide)⟩


theorem to_int_of_range (x : Int) (h0 : -2147483648 ≤ x) (h1 : x < 2147483648) : to_int x = x := by
  unfold to_int
  omega

theorem fwrite_data_append (a b : List Event) :
    fwrite_data (a ++ b) = fwrite_data a ++ fwrite_data b := by
  induction a with
  | nil => rfl
  | cons e es ih => cases e <;> simp [fwrite_data, ih]

theorem wrote_totals_append (a b : List Event) :
    wrote_totals (a ++ b) = wrote_totals a ++ wrote_totals b := by
  induction a with
  | nil => rfl
  | cons e es ih => cases e <;> simp [wrote_totals, ih]

theorem transfer_loop_local_step (size : Int) (fuel : Nat) (src dest : location) (f g : FILE)
    (total : Int) (hs : src.is_ssh = 0) (hf : src.file = some f) (hd : dest.is_ssh = 0)
    (hg : dest.file = some g) (hne : (fread f 16384).1.length ≠ 0) (hw : g.write_ok 0 = true) :
    transfer_loop size (fuel + 1) src dest total =
      if to_int (total + ((fread f 16384).1.length : Int)) < size then
        ([Event.fread 16384, Event.fwrite (fread f 16384).1] ++
          (transfer_loop size fuel { src with file := some (fread f 16384).2 }
            { dest with file := some (fwrite g (fread f 16384).1.length).2 }
            (to_int (total + ((fread f 16384).1.length : Int)))).1,
          (transfer_loop size fuel { src with file := some (fread f 16384).2 }
            { dest with file := some (fwrite g (fread f 16384).1.length).2 }
            (to_int (total + ((fread f 16384).1.length : Int)))).2)
      else
        ([Event.fread 16384, Event.fwrite (fread f 16384).1],
          { src with file := some (fread f 16384).2 },
          { dest with file := some (fwrite g (fread f 16384).1.length).2 },
          loop_exit.finished (to_int (total + ((fread f 16384).1.length : Int)))) := by
  have hw1 : (fwrite g (fread f 16384).1.length).1 = 1 := by
    simp [fwrite, hne, hw]
  simp [transfer_loop, read_chunk, write_chunk, hs, hf, hd, hg, hne, hw1]

theorem transfer_loop_local_eof (size : Int) (fuel : Nat) (src dest : location) (f : FILE)
    (total : Int) (hs : src.is_ssh = 0) (hf : src.file = some f)
    (he : (fread f 16384).1.length = 0) :
    transfer_loop size (fuel + 1) src dest total =
      ([Event.fread 16384], { src with file := some (fread f 16384).2 }, dest,
        loop_exit.finished total) := by
  simp only [transfer_loop, read_chunk, hs, hf, he]
  simp

theorem fread_length (f : FILE) (m : Nat) :
    (fread f m).1.length = min (min m (f.avail 0)) f.data.length := by
  simp [fread, List.length_take]

theorem fread_append (f : FILE) (m : Nat) : (fread f m).1 ++ (fread f m).2.data = f.data := by
  simp [fread]

theorem fread_rest_length (f : FILE) (m : Nat) :
    (fread f m).2.data.length = f.data.length - (fread f m).1.length := by
  simp [fread, List.length_take]
  omega

/-- The transfer loop from a local file to a local file: when every read
delivers at least one byte and every write succeeds, it ends with `total`
at `size` and has handed the content of the source to `fwrite`. -/
theorem transfer_local_local (size : Int) :
    ∀ (fuel : Nat) (src dest : location) (f g : FILE) (total : Int),
      src.is_ssh = 0 → src.file = some f → dest.is_ssh = 0 → dest.file = some g →
      (∀ i, 1 ≤ f.avail i) → (∀ i, g.write_ok i = true) →
      0 ≤ total → size = total + f.data.length → size < 2147483648 → f.data.length < fuel →
      ∃ es src1 dest1,
        transfer_loop size fuel src dest total = (es, src1, dest1, loop_exit.finished size) ∧
        fwrite_data es = f.data ∧ wrote_totals es = [] ∧
        dest1.is_ssh = 0 ∧ dest1.file.isSome = true ∧
        (f.data = [] → ∀ d, Event.fwrite d ∉ es) := by
  intro fuel
  induction fuel with
  | zero => intro _ _ _ _ _ _ _ _ _ _ _ _ _ _ h; omega
  | succ n ih =>
    intro src dest f g total hs hf hd hg hav hw h0 hsize hlt hfuel
    have hlen := fread_length f 16384
    have hav0 := hav 0
    by_cases hnil : f.data = []
    · have he : (fread f 16384).1.length = 0 := by rw [hlen, hnil]; simp
      refine ⟨[Event.fread 16384], { src with file := some (fread f 16384).2 }, dest,
        ?_, ?_, ?_, hd, ?_, ?_⟩
      · rw [transfer_loop_local_eof size n src dest f total hs hf he]
        simp [hnil] at hsize
        rw [hsize]
      · simp [fwrite_data, hnil]
      · simp [wrote_totals]
      · simp [hg]
      · intro _ d; simp
    · have hpos : 0 < f.data.length := List.length_pos.2 hnil
      have hne : (fread f 16384).1.length ≠ 0 := by omega
      have hc2 : (fread f 16384).1.length ≤ f.data.length := by omega
      have hrest := fread_rest_length f 16384
      have happ := fread_append f 16384
      have hti : to_int (total + ((fread f 16384).1.length : Int))
          = total + ((fread f 16384).1.length : Int) := by
        apply to_int_of_range <;> omega
      rw [transfer_loop_local_step size n src dest f g total hs hf hd hg hne (hw 0), hti]
      by_cases hcont : total + ((fread f 16384).1.length : Int) < size
      · obtain ⟨es, s1, d1, hrun, hdat, hwt, hd1, hf1, _⟩ :=
          ih { src with file := some (fread f 16384).2 }
            { dest with file := some (fwrite g (fread f 16384).1.length).2 }
            (fread f 16384).2 (fwrite g (fread f 16384).1.length).2
            (total + ((fread f 16384).1.length : Int))
            hs rfl hd rfl (fun i => hav (i + 1)) (fun i => hw (i + 1)) (by omega)
            (by omega) hlt (by omega)
        refine ⟨[Event.fread 16384, Event.fwrite (fread f 16384).1] ++ es,
          s1, d1, ?_, ?_, ?_, hd1, hf1, fun h => absurd h hnil⟩
        · rw [if_pos hcont, hrun]
        · rw [fwrite_data_append, hdat]
          simpa [fwrite_data] using happ
        · rw [wrote_totals_append, hwt]
          simp [wrote_totals]
      · have hall : (fread f 16384).1.length = f.data.length := by omega
        have hnil2 : (fread f 16384).2.data = [] := by
          apply List.eq_nil_of_length_eq_zero
          omega
        refine ⟨[Event.fread 16384, Event.fwrite (fread f 16384).1],
          { src with file := some (fread f 16384).2 },
          { dest with file := some (fwrite g (fread f 16384).1.length).2 },
          ?_, ?_, ?_, hd, rfl, fun h => absurd h hnil⟩
        · rw [if_neg hcont]
          have : total + ((fread f 16384).1.length : Int) = size := by omega
          rw [this]
        · rw [hnil2] at happ
          simpa [fwrite_data] using happ
        · simp [wrote_totals]

theorem finalize_local (dest : location) (total : Int) (hd : dest.is_ssh = 0)
    (hf : dest.file.isSome = true) :
    finalize dest total =
      ([Event.wrote total, Event.fclose], { dest with file := none }, outcome.returned 0) := by
  obtain ⟨g, hg⟩ := Option.isSome_iff_exists.1 hf
  simp [finalize, hd, hg]

theorem resolve_local (fuel : Nat) (src : location) (f : FILE) (hs : src.is_ssh = 0)
    (hf : src.file = some f) :
    resolve fuel src = ([Event.fstat], src,
      resolved.ok (to_int f.st_size) (to_int f.st_mode) (ssh_basename src.path)) := by
  simp [resolve, hs, hf]

/-- C3: a local source whose content is `f.data`, of length below `2^31` and
equal to its `stat` size, read in chunks of 1 to 16384 bytes, copied to a
local destination whose handle is open (or opens) and whose writes succeed:
`do_copy` returns 0, the bytes handed to `fwrite` are in order the content,
the total printed is its length, and nothing is written for an empty file. -/
theorem local_copy_round_trip (fuel : Nat) (sys : Sys) (src dest : location) (f g : FILE)
    (hs : src.is_ssh = 0) (hf : src.file = some f) (hd : dest.is_ssh = 0)
    (hg : dest.file = some g ∨
      (dest.file = none ∧ sys.fopen 0 (ssh_basename src.path) true = fopen_result.ok g))
    (hsize : f.st_size = f.data.length) (hn : f.data.length < 2147483648)
    (hav : ∀ i, 1 ≤ f.avail i) (hw : ∀ i, g.write_ok i = true)
    (hfuel : f.data.length < fuel) :
    (do_copy fuel sys src dest).out = outcome.returned 0 ∧
    fwrite_data (do_copy fuel sys src dest).trace = f.data ∧
    wrote_totals (do_copy fuel sys src dest).trace = [(f.data.length : Int)] ∧
    (f.data = [] → ∀ d, Event.fwrite d ∉ (do_copy fuel sys src dest).trace) := by
  have hsz : to_int (f.st_size : Int) = (f.data.length : Int) := by
    rw [hsize]
    apply to_int_of_range <;> omega
  have hres := resolve_local fuel src f hs hf
  rw [hsz] at hres
  rcases hg with hg | ⟨hnone, hopen⟩
  · obtain ⟨es, s1, d1, hrun, hdat, hwt, hd1, hf1, hno⟩ :=
      transfer_local_local (f.data.length : Int) fuel src dest f g 0 hs hf hd hg hav hw
        (le_refl 0) (by simp) (by omega) hfuel
    have hrun2 : do_copy fuel sys src dest = ⟨outcome.returned 0, s1, { d1 with file := none },
        sys, [Event.fstat] ++ [] ++ es ++ [Event.wrote (f.data.length : Int), Event.fclose]⟩ := by
      simp [do_copy, hres, prepare, hd, hg, hs, hrun, finalize_local d1 _ hd1 hf1]
    rw [hrun2]
    refine ⟨rfl, ?_, ?_, ?_⟩
    · simp [fwrite_data_append, fwrite_data, hdat]
    · simp [wrote_totals_append, wrote_totals, hwt]
    · intro h d
      have := hno h d
      simp [this]
  · obtain ⟨es, s1, d1, hrun, hdat, hwt, hd1, hf1, hno⟩ :=
      transfer_local_local (f.data.length : Int) fuel src { dest with file := some g } f g 0
        hs hf hd rfl hav hw (le_refl 0) (by simp) (by omega) hfuel
    simp only [hd] at hrun
    have hrun2 : do_copy fuel sys src dest = ⟨outcome.returned 0, s1, { d1 with file := none },
        { sys with fopen := shift sys.fopen },
        [Event.fstat] ++ [Event.fopen (ssh_basename src.path) true] ++ es
          ++ [Event.wrote (f.data.length : Int), Event.fclose]⟩ := by
      simp [do_copy, hres, prepare, hd, hnone, hopen, hs, hrun, finalize_local d1 _ hd1 hf1]
    rw [hrun2]
    refine ⟨rfl, ?_, ?_, ?_⟩
    · simp [fwrite_data_append, fwrite_data, hdat]
    · simp [wrote_totals_append, wrote_totals, hwt]
    · intro h d
      have := hno h d
      simp [this]

/-! ## The events of each part of `do_copy` -/

theorem read_chunk_events (src : location) :
    ∀ e ∈ (read_chunk src).1, e = Event.scp_read 16384 ∨ e = Event.fread 16384 := by
  unfold read_chunk
  split
  · split
    · simp
    · split <;> simp
  · split
    · simp
    · dsimp only
      split <;> simp

theorem write_chunk_events (dest : location) (buffer : List Byte) :
    ∀ e ∈ (write_chunk dest buffer).1,
      e = Event.scp_write buffer ∨ e = Event.fwrite buffer ∨ e = Event.scp_free := by
  unfold write_chunk
  split
  · split
    · simp
    · split <;> simp
  · split
    · simp
    · dsimp only
      split <;> simp

theorem write_chunk_is_ssh (dest : location) (buffer : List Byte) :
    (write_chunk dest buffer).2.1.is_ssh = dest.is_ssh := by
  unfold write_chunk
  split
  · split
    · rfl
    · split <;> rfl
  · split
    · rfl
    · dsimp only
      split <;> rfl

/-- The transfer loop makes no call but reads, writes and the release of the
destination channel, and leaves the kind of the destination as it is. -/
theorem transfer_loop_events (size : Int) :
    ∀ (fuel : Nat) (src dest : location) (total : Int),
      (∀ e ∈ (transfer_loop size fuel src dest total).1, e.after_prepare = true) ∧
      (transfer_loop size fuel src dest total).2.2.1.is_ssh = dest.is_ssh := by
  intro fuel
  induction fuel with
  | zero => intro _ _ _; simp [transfer_loop]
  | succ n ih =>
    intro src dest total
    have hr := read_chunk_events src
    have hr2 : ∀ e ∈ (read_chunk src).1, e.after_prepare = true := by
      intro e he
      rcases hr e he with h | h <;> simp [h, Event.after_prepare]
    unfold transfer_loop
    split
    all_goals (rename_i heq; rw [heq] at hr2; simp only at hr2)
    · exact ⟨hr2, rfl⟩
    · exact ⟨hr2, rfl⟩
    · exact ⟨hr2, rfl⟩
    · rename_i es src1 buffer
      have hw := write_chunk_events dest buffer
      have hi := write_chunk_is_ssh dest buffer
      have hw2 : ∀ e ∈ (write_chunk dest buffer).1, e.after_prepare = true := by
        intro e he
        rcases hw e he with h | h | h <;> simp [h, Event.after_prepare]
      have happ : ∀ es2 : List Event, (∀ e ∈ es2, e.after_prepare = true) →
          ∀ e ∈ es ++ es2, e.after_prepare = true := by
        intro es2 h2 e he
        rcases List.mem_append.1 he with h | h
        · exact hr2 e h
        · exact h2 e h
      split
      all_goals (rename_i heq2; rw [heq2] at hw2 hi; simp only at hw2 hi)
      · exact ⟨happ _ hw2, hi⟩
      · exact ⟨happ _ hw2, hi⟩
      · dsimp only
        split
        · obtain ⟨h1, h2⟩ := ih src1 _ (to_int (total + buffer.length))
          refine ⟨?_, h2.trans hi⟩
          intro e he
          rcases List.mem_append.1 he with h | h
          · exact happ _ hw2 e h
          · exact h1 e h
        · exact ⟨happ _ hw2, hi⟩

theorem finalize_events (dest : location) (total : Int) :
    ∀ e ∈ (finalize dest total).1, e.after_prepare = true := by
  unfold finalize
  split
  · split
    · simp [Event.after_prepare]
    · split <;> simp [Event.after_prepare]
  · split <;> simp [Event.after_prepare]

theorem pull_loop_events :
    ∀ (fuel : Nat) (ch : ssh_scp), ∀ e ∈ (pull_loop fuel ch).1, e.polling = true := by
  intro fuel
  induction fuel with
  | zero => intro _ e he; simp [pull_loop] at he
  | succ n ih =>
    intro ch e he
    unfold pull_loop at he
    dsimp only at he
    split at he
    · simp only [List.mem_cons] at he
      rcases he with h | h | h
      · simp [h, Event.polling]
      · simp [h, Event.polling]
      · exact ih _ e h
    · simp only [List.mem_singleton] at he
      simp [he, Event.polling]
    · simp only [List.mem_singleton] at he
      simp [he, Event.polling]
    · simp only [List.mem_cons] at he
      rcases he with h | h
      · simp [h, Event.polling]
      · exact ih _ e h

theorem poll_events_polling (k : Nat) :
    ∀ (requests : Nat → request), ∀ e ∈ poll_events requests k, e.polling = true := by
  induction k with
  | zero => intro _ e he; simp [poll_events] at he
  | succ n ih =>
    intro requests e he
    unfold poll_events at he
    rcases List.mem_append.1 he with h | h
    · split at h
      · simp only [List.mem_cons, List.mem_singleton, List.mem_nil_iff, or_false] at h
        rcases h with h | h <;> simp [h, Event.polling]
      · simp only [List.mem_singleton] at h
        simp [h, Event.polling]
    · exact ih _ e h

/-- The request loop passes `k` requests that are neither `NEWFILE` nor
`SSH_ERROR` and then runs on what follows them. -/
theorem pull_loop_skip (k : Nat) :
    ∀ (fuel : Nat) (ch : ssh_scp), (∀ i, i < k → (ch.requests i).skipped = true) →
      pull_loop (fuel + k) ch =
        (poll_events ch.requests k ++
            (pull_loop fuel { ch with requests := fun i => ch.requests (i + k) }).1,
          (pull_loop fuel { ch with requests := fun i => ch.requests (i + k) }).2) := by
  induction k with
  | zero =>
    intro fuel ch _
    simp [poll_events]
  | succ n ih =>
    intro fuel ch hsk
    have h0 := hsk 0 (Nat.succ_pos n)
    have hrest : ∀ i, i < n →
        (({ ch with requests := shift ch.requests } : ssh_scp).requests i).skipped = true :=
      fun i hi => hsk (i + 1) (Nat.succ_lt_succ hi)
    have hih := ih fuel { ch with requests := shift ch.requests } hrest
    have hsh : (fun i => shift ch.requests (i + n)) = fun i => ch.requests (i + (n + 1)) := by
      funext i
      rfl
    simp only [hsh] at hih
    rw [show fuel + (n + 1) = (fuel + n) + 1 from rfl]
    cases hreq : ch.requests 0 with
    | newdir => simp [pull_loop, hreq, hih, poll_events]
    | newfile a b c => rw [hreq] at h0; simp [request.skipped] at h0
    | error => rw [hreq] at h0; simp [request.skipped] at h0
    | other c => simp [pull_loop, hreq, hih, poll_events]

theorem pull_loop_newfile (fuel : Nat) (ch : ssh_scp) (name : CString) (size mode : Nat)
    (h : ch.requests 0 = request.newfile name size mode) :
    pull_loop (fuel + 1) ch =
      ([Event.pull_request], { ch with requests := shift ch.requests },
        resolved.ok (to_int size) (to_int mode) name) := by
  simp [pull_loop, h]

/-- After `k` skipped requests and a `NEWFILE`, the loop ends with the
descriptor of that request. -/
theorem pull_loop_resolves (k fuel : Nat) (ch : ssh_scp) (name : CString) (size mode : Nat)
    (hsk : ∀ i, i < k → (ch.requests i).skipped = true)
    (hfile : ch.requests k = request.newfile name size mode) (hfuel : k < fuel) :
    pull_loop fuel ch =
      (poll_events ch.requests k ++ [Event.pull_request],
        { ch with requests := fun i => ch.requests (i + k + 1) },
        resolved.ok (to_int size) (to_int mode) name) := by
  obtain ⟨m, rfl⟩ : ∃ m, fuel = (m + 1) + k := ⟨fuel - k - 1, by omega⟩
  rw [pull_loop_skip k (m + 1) ch hsk,
    pull_loop_newfile m _ name size mode (by simpa using hfile)]
  have hsh : shift (fun i => ch.requests (i + k)) = fun i => ch.requests (i + k + 1) := by
    funext i
    simp only [shift]
    congr 1
    omega
  simp only [hsh]

/-- On a peer that answers every poll with a result that is none of `NEWDIR`,
`NEWFILE`, `SSH_ERROR`, the request loop polls as many times as it has fuel
and is still turning. -/
theorem pull_loop_never (fuel : Nat) :
    ∀ (ch : ssh_scp), (∀ i, ∃ c, ch.requests i = request.other c) →
      (pull_loop fuel ch).1 = List.replicate fuel Event.pull_request ∧
      (pull_loop fuel ch).2.2 = resolved.out_of_fuel := by
  induction fuel with
  | zero => intro _ _; exact ⟨rfl, rfl⟩
  | succ n ih =>
    intro ch h
    obtain ⟨c, hc⟩ := h 0
    obtain ⟨h1, h2⟩ := ih { ch with requests := shift ch.requests } fun i => h (i + 1)
    simp only [pull_loop, hc]
    exact ⟨by rw [h1]; rfl, h2⟩

theorem scp_reads_append (a b : List Event) : scp_reads (a ++ b) = scp_reads a + scp_reads b := by
  induction a with
  | nil => simp [scp_reads]
  | cons e es ih =>
    cases e <;> simp [scp_reads, ih]
    omega

theorem chunks_written_append (a b : List Event) :
    chunks_written (a ++ b) = chunks_written a ++ chunks_written b := by
  induction a with
  | nil => rfl
  | cons e es ih => cases e <;> simp [chunks_written, ih]

theorem push_calls_append (a b : List Event) :
    push_calls (a ++ b) = push_calls a ++ push_calls b := by
  induction a with
  | nil => rfl
  | cons e es ih => cases e <;> simp [push_calls, ih]

/-- The request loop makes no call but `ssh_scp_pull_request` and the denial of
directories. -/
theorem polling_quiet (es : List Event) (h : ∀ e ∈ es, e.polling = true) :
    scp_reads es = 0 ∧ chunks_written es = [] ∧ push_calls es = [] ∧
      Event.accept_request ∉ es ∧ Event.deny_request cannot_open ∉ es := by
  induction es with
  | nil => simp [scp_reads, chunks_written, push_calls]
  | cons e es ih =>
    have he := h e (List.mem_cons_self e es)
    obtain ⟨h1, h2, h3, h4, h5⟩ := ih fun x hx => h x (List.mem_cons_of_mem e hx)
    cases e <;> simp [Event.polling] at he
    · simp [scp_reads, chunks_written, push_calls, h1, h2, h3, h4, h5]
    · subst he
      refine ⟨by simp [scp_reads, h1], by simp [chunks_written, h2], by simp [push_calls, h3],
        by simp [h4], ?_⟩
      simp only [List.mem_cons, not_or]
      exact ⟨by decide, h5⟩

theorem resolve_remote (k fuel : Nat) (src : location) (ch : ssh_scp) (name : CString)
    (size mode : Nat) (hs : src.is_ssh ≠ 0) (hch : src.scp = some ch)
    (hsk : ∀ i, i < k → (ch.requests i).skipped = true)
    (hfile : ch.requests k = request.newfile name size mode) (hfuel : k < fuel) :
    resolve fuel src =
      (poll_events ch.requests k ++ [Event.pull_request],
        { src with scp := some { ch with requests := fun i => ch.requests (i + k + 1) } },
        resolved.ok (to_int size) (to_int mode) name) := by
  simp [resolve, hs, hch, pull_loop_resolves k fuel ch name size mode hsk hfile hfuel]

/-- C5: the source is remote and announces a file (after `k` requests that
the loop passes), the destination is local with no open handle, and opening
the announced name for writing fails: `do_copy` denies the request once with
"Cannot open local file", never accepts, reads nothing from the channel,
writes nothing, and returns -1. -/
theorem deny_when_open_fails (k fuel : Nat) (sys : Sys) (src dest : location) (ch : ssh_scp)
    (name : CString) (size mode : Nat)
    (hs : src.is_ssh ≠ 0) (hch : src.scp = some ch)
    (hsk : ∀ i, i < k → (ch.requests i).skipped = true)
    (hfile : ch.requests k = request.newfile name size mode)
    (hd : dest.is_ssh = 0) (hnone : dest.file = none)
    (hopen : ∀ g, sys.fopen 0 name true ≠ fopen_result.ok g) (hfuel : k < fuel) :
    (do_copy fuel sys src dest).out = outcome.returned (-1) ∧
    (do_copy fuel sys src dest).trace = poll_events ch.requests k ++
      [Event.pull_request, Event.fopen name true, Event.deny_request cannot_open] ∧
    (do_copy fuel sys src dest).trace.count (Event.deny_request cannot_open) = 1 ∧
    Event.accept_request ∉ (do_copy fuel sys src dest).trace ∧
    scp_reads (do_copy fuel sys src dest).trace = 0 ∧
    chunks_written (do_copy fuel sys src dest).trace = [] := by
  have hres := resolve_remote k fuel src ch name size mode hs hch hsk hfile hfuel
  obtain ⟨q1, q2, _, q4, q5⟩ := polling_quiet _ (poll_events_polling k ch.requests)
  have hprep : prepare sys
      { src with scp := some { ch with requests := fun i => ch.requests (i + k + 1) } }
      dest (to_int size) name =
      ([Event.fopen name true, Event.deny_request cannot_open],
        { sys with fopen := shift sys.fopen }, dest, prepared.fail) := by
    unfold prepare
    rw [if_neg (by simp [hd])]
    simp only [hnone]
    cases ho : sys.fopen 0 name true with
    | ok g => exact absurd ho (hopen g)
    | eisdir => simp [hs]
    | fail => simp [hs]
  have hrun : do_copy fuel sys src dest = ⟨outcome.returned (-1),
      { src with scp := some { ch with requests := fun i => ch.requests (i + k + 1) } }, dest,
      { sys with fopen := shift sys.fopen },
      poll_events ch.requests k ++
        [Event.pull_request, Event.fopen name true, Event.deny_request cannot_open]⟩ := by
    simp [do_copy, hres, hprep]
  rw [hrun]
  refine ⟨rfl, rfl, ?_, ?_, ?_, ?_⟩
  · rw [List.count_append, List.count_eq_zero.2 q5]
    simp [List.count_cons]
  · simp [q4]
  · simp [scp_reads_append, q1, scp_reads]
  · simp [chunks_written_append, q2, chunks_written]

/-! ## The shape of a run of `do_copy` -/

/-- Once the descriptor is resolved, the trace of `do_copy` is the events of
the resolution, those of the preparation of the destination, and then events
of the transfer loop and of the end only. -/
theorem do_copy_of_resolved (fuel : Nat) (sys : Sys) (src dest : location)
    (es1 : List Event) (src1 : location) (size mode : Int) (filename : CString)
    (hres : resolve fuel src = (es1, src1, resolved.ok size mode filename)) :
    ∃ tail, (do_copy fuel sys src dest).trace =
        es1 ++ (prepare sys src1 dest size filename).1 ++ tail ∧
      ∀ e ∈ tail, e.after_prepare = true := by
  unfold do_copy
  rw [hres]
  dsimp only
  split
  · rename_i heq
    exact ⟨[], by simp [heq], by simp⟩
  · rename_i heq
    exact ⟨[], by simp [heq], by simp⟩
  · rename_i es2 sys2 dest2 heq
    have hev := (transfer_loop_events size fuel src1 dest2 0).1
    split
    all_goals (rename_i heq3; rw [heq3] at hev; simp only at hev)
    · exact ⟨_, by simp [heq], hev⟩
    · exact ⟨_, by simp [heq], hev⟩
    · exact ⟨_, by simp [heq], hev⟩
    · rename_i es3 src3 dest3 total
      refine ⟨es3 ++ (finalize dest3 total).1, by simp [heq], ?_⟩
      intro e he
      rcases List.mem_append.1 he with h | h
      · exact hev e h
      · exact finalize_events dest3 total e h

theorem after_prepare_quiet (es : List Event) (h : ∀ e ∈ es, e.after_prepare = true) :
    push_calls es = [] ∧ Event.accept_request ∉ es ∧ ∀ n w, Event.fopen n w ∉ es := by
  induction es with
  | nil => simp [push_calls]
  | cons e es ih =>
    have he := h e (List.mem_cons_self e es)
    obtain ⟨h1, h2, h3⟩ := ih fun x hx => h x (List.mem_cons_of_mem e hx)
    cases e <;> simp [Event.after_prepare] at he <;> simp [push_calls, h1, h2, h3]

theorem prepare_remote (sys : Sys) (src dest : location) (dch : ssh_scp) (size : Int)
    (filename : CString) (hd : dest.is_ssh ≠ 0) (hdch : dest.scp = some dch) :
    (prepare sys src dest size filename).1 =
      Event.push_file src.path size 420 :: (if dch.push_ok 0 then [] else [Event.scp_free]) := by
  unfold prepare
  rw [if_pos hd]
  simp only [hdch]
  split <;> rfl

/-- With a remote destination, once the descriptor is resolved to `size`,
`ssh_scp_push_file` is called exactly once, before any write, with the path
of the source, `size` and the mode 0644. -/
theorem push_once (fuel : Nat) (sys : Sys) (src dest : location) (dch : ssh_scp)
    (es1 : List Event) (src1 : location) (size mode : Int) (filename : CString)
    (hd : dest.is_ssh ≠ 0) (hdch : dest.scp = some dch)
    (hres : resolve fuel src = (es1, src1, resolved.ok size mode filename))
    (hpath : src1.path = src.path) (hp1 : push_calls es1 = [])
    (hc1 : chunks_written es1 = []) :
    push_calls (do_copy fuel sys src dest).trace = [(src.path, size, 420)] ∧
    ∃ pre post,
      (do_copy fuel sys src dest).trace = pre ++ Event.push_file src.path size 420 :: post ∧
      chunks_written pre = [] := by
  obtain ⟨tail, htr, htail⟩ :=
    do_copy_of_resolved fuel sys src dest es1 src1 size mode filename hres
  rw [prepare_remote sys src1 dest dch size filename hd hdch, hpath] at htr
  obtain ⟨t1, _, _⟩ := after_prepare_quiet tail htail
  refine ⟨?_, es1, (if dch.push_ok 0 then [] else [Event.scp_free]) ++ tail, ?_, hc1⟩
  · rw [htr]
    simp only [push_calls_append, hp1, t1, push_calls]
    split <;> simp [push_calls]
  · rw [htr]
    simp

/-- C6, as amended: with a remote destination and a source whose descriptor
resolves (a local file, or a remote source that announces a file) with a
size `n` below `2^31`, `ssh_scp_push_file` is called exactly once, before any
write, with the source path as it stands (not its final component), the
size `n` of the descriptor and the mode 0644. -/
theorem push_announcement (fuel : Nat) (sys : Sys) (src dest : location) (dch : ssh_scp)
    (n : Nat)
    (hd : dest.is_ssh ≠ 0) (hdch : dest.scp = some dch) (hn : n < 2147483648)
    (hsrc : (src.is_ssh = 0 ∧ ∃ f, src.file = some f ∧ f.st_size = n) ∨
      (src.is_ssh ≠ 0 ∧ ∃ ch k name mode, src.scp = some ch ∧
        (∀ i, i < k → (ch.requests i).skipped = true) ∧
        ch.requests k = request.newfile name n mode ∧ k < fuel)) :
    push_calls (do_copy fuel sys src dest).trace = [(src.path, (n : Int), 420)] ∧
    ∃ pre post,
      (do_copy fuel sys src dest).trace =
        pre ++ Event.push_file src.path (n : Int) 420 :: post ∧
      chunks_written pre = [] := by
  have hsz : to_int (n : Int) = (n : Int) := by apply to_int_of_range <;> omega
  rcases hsrc with ⟨hs, f, hf, hfn⟩ | ⟨hs, ch, k, name, mode, hch, hsk, hfile, hfuel⟩
  · have hres := resolve_local fuel src f hs hf
    rw [hfn, hsz] at hres
    exact push_once fuel sys src dest dch _ _ _ _ _ hd hdch hres rfl
      (by simp [push_calls]) (by simp [chunks_written])
  · obtain ⟨_, q2, q3, _, _⟩ := polling_quiet _ (poll_events_polling k ch.requests)
    have hres := resolve_remote k fuel src ch name n mode hs hch hsk hfile hfuel
    rw [hsz] at hres
    exact push_once fuel sys src dest dch _ _ _ _ _ hd hdch hres rfl
      (by simp [push_calls_append, q3, push_calls])
      (by simp [chunks_written_append, q2, chunks_written])

/-- Once the descriptor is resolved to `size` and the destination is prepared,
the trace of `do_copy` goes on with the events of the loop
`do ... while(total < size)` run on that `size`. -/
theorem do_copy_runs_loop (fuel : Nat) (sys : Sys) (src dest : location)
    (es1 : List Event) (src1 : location) (size mode : Int) (filename : CString)
    (hres : resolve fuel src = (es1, src1, resolved.ok size mode filename))
    (hok : (prepare sys src1 dest size filename).2.2.2 = prepared.ok) :
    ∃ rest, (do_copy fuel sys src dest).trace =
      es1 ++ (prepare sys src1 dest size filename).1 ++
        (transfer_loop size fuel src1 (prepare sys src1 dest size filename).2.2.1 0).1 ++
        rest := by
  unfold do_copy
  rw [hres]
  dsimp only
  split
  · rename_i heq
    rw [heq] at hok
    cases hok
  · rename_i heq
    rw [heq] at hok
    cases hok
  · rename_i es2 sys2 dest2 heq
    rw [heq]
    dsimp only
    split
    all_goals (rename_i heq3; rw [heq3])
    · exact ⟨[], by simp⟩
    · exact ⟨[], by simp⟩
    · exact ⟨[], by simp⟩
    · rename_i es3 src3 dest3 total
      exact ⟨(finalize dest3 total).1, by simp⟩

theorem transfer_loop_remote_step (size : Int) (fuel : Nat) (src dest : location) (f : FILE)
    (ch : ssh_scp) (total : Int) (hs : src.is_ssh = 0) (hf : src.file = some f)
    (hd : dest.is_ssh ≠ 0) (hch : dest.scp = some ch) (hne : (fread f 16384).1.length ≠ 0)
    (hw : ch.write_ok 0 = true)
    (hstop : ¬ to_int (total + ((fread f 16384).1.length : Int)) < size) :
    transfer_loop size (fuel + 1) src dest total =
      ([Event.fread 16384, Event.scp_write (fread f 16384).1],
        { src with file := some (fread f 16384).2 },
        { dest with scp := some { ch with write_ok := shift ch.write_ok } },
        loop_exit.finished (to_int (total + ((fread f 16384).1.length : Int)))) := by
  simp only [transfer_loop, read_chunk, write_chunk]
  simp [hs, hf, hd, hch, hne, hw, hstop]

/-- The run of `do_copy` on a local source whose `stat` size `s` has
`2^31 ≤ s < 2^32`, when the destination is prepared, the first read and write
succeed and the close succeeds: the loop makes one turn. -/
theorem one_turn_when_negative (fuel : Nat) (sys : Sys) (src dest : location) (f : FILE)
    (hs : src.is_ssh = 0) (hf : src.file = some f)
    (hlo : 2147483648 ≤ f.st_size) (hhi : f.st_size < 4294967296)
    (hlen : f.data.length = f.st_size) (hav : 1 ≤ f.avail 0)
    (hdest : (dest.is_ssh = 0 ∧ ∃ g, (dest.file = some g ∨
          (dest.file = none ∧ sys.fopen 0 (ssh_basename src.path) true = fopen_result.ok g)) ∧
          g.write_ok 0 = true) ∨
      (dest.is_ssh ≠ 0 ∧ ∃ ch, dest.scp = some ch ∧ ch.push_ok 0 = true ∧
          ch.write_ok 0 = true ∧ ch.close_ok 0 = true))
    (hfuel : 0 < fuel) :
    (do_copy fuel sys src dest).out = outcome.returned 0 ∧
      (do_copy fuel sys src dest).trace.count (Event.fread 16384) = 1 ∧
      chunks_written (do_copy fuel sys src dest).trace = [(fread f 16384).1] ∧
      1 ≤ (fread f 16384).1.length ∧ (fread f 16384).1.length ≤ 16384 ∧
      wrote_totals (do_copy fuel sys src dest).trace = [((fread f 16384).1.length : Int)] ∧
      (fread f 16384).1.length < f.st_size := by
  have hneg : to_int f.st_size < 0 := by
    unfold to_int
    omega
  have hl := fread_length f 16384
  have hc1 : 1 ≤ (fread f 16384).1.length := by omega
  have hc2 : (fread f 16384).1.length ≤ 16384 := by omega
  have hne : (fread f 16384).1.length ≠ 0 := by omega
  have hti : to_int (0 + ((fread f 16384).1.length : Int)) = ((fread f 16384).1.length : Int) := by
    rw [zero_add]
    apply to_int_of_range <;> omega
  have hstop : ¬ ((fread f 16384).1.length : Int) < to_int f.st_size := by omega
  have hres := resolve_local fuel src f hs hf
  obtain ⟨n, rfl⟩ : ∃ n, fuel = n + 1 := ⟨fuel - 1, by omega⟩
  rcases hdest with ⟨hd, g, hg, hw⟩ | ⟨hd, ch, hch, hp, hw, hc⟩
  · rcases hg with hg | ⟨hnone, hopen⟩
    · have hstep := transfer_loop_local_step (to_int f.st_size) n src dest f g 0 hs hf hd hg hne hw
      rw [hti, if_neg hstop] at hstep
      have hrun : do_copy (n + 1) sys src dest =
          ⟨outcome.returned 0, { src with file := some (fread f 16384).2 },
            { dest with file := none }, sys,
            [Event.fstat] ++ [] ++ [Event.fread 16384, Event.fwrite (fread f 16384).1] ++
              [Event.wrote ((fread f 16384).1.length : Int), Event.fclose]⟩ := by
        simp [do_copy, hres, prepare, hd, hg, hs, hstep, finalize]
      rw [hrun]
      refine ⟨rfl, ?_, ?_, hc1, hc2, ?_, by omega⟩
      · simp [List.count_cons]
      · simp [chunks_written]
      · simp [wrote_totals]
    · have hstep := transfer_loop_local_step (to_int f.st_size) n src
        { dest with file := some g } f g 0 hs hf hd rfl hne hw
      rw [hti, if_neg hstop] at hstep
      simp only [hd] at hstep
      have hrun : do_copy (n + 1) sys src dest =
          ⟨outcome.returned 0, { src with file := some (fread f 16384).2 },
            { dest with file := none }, { sys with fopen := shift sys.fopen },
            [Event.fstat] ++ [Event.fopen (ssh_basename src.path) true] ++
              [Event.fread 16384, Event.fwrite (fread f 16384).1] ++
              [Event.wrote ((fread f 16384).1.length : Int), Event.fclose]⟩ := by
        simp [do_copy, hres, prepare, hd, hnone, hopen, hs, hstep, finalize]
      rw [hrun]
      refine ⟨rfl, ?_, ?_, hc1, hc2, ?_, by omega⟩
      · simp [List.count_cons]
      · simp [chunks_written]
      · simp [wrote_totals]
  · have hstep := transfer_loop_remote_step (to_int f.st_size) n src
      { dest with scp := some { ch with push_ok := shift ch.push_ok } } f
      { ch with push_ok := shift ch.push_ok } 0 hs hf hd rfl hne hw (by rw [hti]; exact hstop)
    rw [hti] at hstep
    have hrun : do_copy (n + 1) sys src dest =
        ⟨outcome.returned 0, { src with file := some (fread f 16384).2 },
          { dest with scp := some { ch with push_ok := shift ch.push_ok,
                                            write_ok := shift ch.write_ok,
                                            close_ok := shift ch.close_ok } }, sys,
          [Event.fstat] ++ [Event.push_file src.path (to_int f.st_size) 420] ++
            [Event.fread 16384, Event.scp_write (fread f 16384).1] ++
            [Event.wrote ((fread f 16384).1.length : Int), Event.scp_close]⟩ := by
      simp [do_copy, hres, prepare, hd, hch, hp, hstep, finalize, hc]
    rw [hrun]
    refine ⟨rfl, ?_, ?_, hc1, hc2, ?_, by omega⟩
    · simp [List.count_cons]
    · simp [chunks_written]
    · simp [wrote_totals]

/-- C10: `size` is an `int`.  For a local source, `do_copy` stores the `stat`
size converted to `int`, announces that value when the destination is
remote, and runs the loop `do ... while(total < size)` on it.  A size below
`2^31` is stored unchanged.  For a real size `s` with `2^31 ≤ s < 2^32` the
stored size is `s - 2^32`, negative; when the destination is prepared, the
first read and write succeed and the close succeeds, the loop makes one
turn: one chunk of 1 to 16384 bytes is read and written, `do_copy` returns 0
and the total printed is the length of that chunk, below `s`. -/
theorem size_held_in_int (fuel : Nat) (sys : Sys) (src dest : location) (f : FILE)
    (hs : src.is_ssh = 0) (hf : src.file = some f) :
    (resolve fuel src).2.2 =
      resolved.ok (to_int f.st_size) (to_int f.st_mode) (ssh_basename src.path) ∧
    (∃ tail, (do_copy fuel sys src dest).trace = Event.fstat ::
      (prepare sys src dest (to_int f.st_size) (ssh_basename src.path)).1 ++ tail) ∧
    ((prepare sys src dest (to_int f.st_size) (ssh_basename src.path)).2.2.2 = prepared.ok →
      ∃ rest, (do_copy fuel sys src dest).trace = Event.fstat ::
        (prepare sys src dest (to_int f.st_size) (ssh_basename src.path)).1 ++
        (transfer_loop (to_int f.st_size) fuel src
          (prepare sys src dest (to_int f.st_size) (ssh_basename src.path)).2.2.1 0).1 ++
        rest) ∧
    (∀ ch, dest.is_ssh ≠ 0 → dest.scp = some ch →
      push_calls (do_copy fuel sys src dest).trace = [(src.path, to_int f.st_size, 420)]) ∧
    (f.st_size < 2147483648 → to_int f.st_size = f.st_size) ∧
    (2147483648 ≤ f.st_size → f.st_size < 4294967296 →
      to_int f.st_size = (f.st_size : Int) - 4294967296 ∧ to_int f.st_size < 0 ∧
      (f.data.length = f.st_size → 1 ≤ f.avail 0 →
        ((dest.is_ssh = 0 ∧ ∃ g, (dest.file = some g ∨
            (dest.file = none ∧
              sys.fopen 0 (ssh_basename src.path) true = fopen_result.ok g)) ∧
            g.write_ok 0 = true) ∨
          (dest.is_ssh ≠ 0 ∧ ∃ ch, dest.scp = some ch ∧ ch.push_ok 0 = true ∧
            ch.write_ok 0 = true ∧ ch.close_ok 0 = true)) →
        0 < fuel →
        (do_copy fuel sys src dest).out = outcome.returned 0 ∧
        (do_copy fuel sys src dest).trace.count (Event.fread 16384) = 1 ∧
        chunks_written (do_copy fuel sys src dest).trace = [(fread f 16384).1] ∧
        1 ≤ (fread f 16384).1.length ∧ (fread f 16384).1.length ≤ 16384 ∧
        wrote_totals (do_copy fuel sys src dest).trace =
          [((fread f 16384).1.length : Int)] ∧
        (fread f 16384).1.length < f.st_size)) := by
  have hres := resolve_local fuel src f hs hf
  refine ⟨by rw [hres], ?_, ?_, ?_, ?_, ?_⟩
  · obtain ⟨tail, htr, _⟩ := do_copy_of_resolved fuel sys src dest _ _ _ _ _ hres
    exact ⟨tail, by rw [htr]; simp⟩
  · intro hok
    obtain ⟨rest, htr⟩ := do_copy_runs_loop fuel sys src dest _ _ _ _ _ hres hok
    exact ⟨rest, by rw [htr]; simp⟩
  · intro ch hd hdch
    exact (push_once fuel sys src dest ch _ _ _ _ _ hd hdch hres rfl
      (by simp [push_calls]) (by simp [chunks_written])).1
  · intro h
    apply to_int_of_range <;> omega
  · intro hlo hhi
    refine ⟨?_, ?_, fun hlen hav hdest hfuel =>
      one_turn_when_negative fuel sys src dest f hs hf hlo hhi hlen hav hdest hfuel⟩
    · unfold to_int
      omega
    · unfold to_int
      omega

theorem poll_events_newdirs (k : Nat) :
    ∀ (requests : Nat → request), (∀ i, i < k → requests i = request.newdir) →
      poll_events requests k = dir_denials k := by
  induction k with
  | zero => intro _ _; rfl
  | succ n ih =>
    intro requests h
    have h0 := h 0 (Nat.succ_pos n)
    simp only [poll_events, h0, dir_denials]
    rw [ih (shift requests) fun i hi => h (i + 1) (Nat.succ_lt_succ hi)]
    rfl

/-- The transfer loop from a channel that delivers the chunks `cs`, each of 1
to 16384 bytes, `size` bytes in all, to a local file whose writes succeed. -/
theorem transfer_remote_local (size : Int) :
    ∀ (cs : List (List Byte)) (fuel : Nat) (src dest : location) (ch : ssh_scp) (g : FILE)
      (total : Int),
      src.is_ssh ≠ 0 → src.scp = some ch → dest.is_ssh = 0 → dest.file = some g →
      cs ≠ [] → (∀ c ∈ cs, 1 ≤ c.length ∧ c.length ≤ 16384) →
      (∀ i, i < cs.length → ch.reads i = cs[i]?) → (∀ i, g.write_ok i = true) →
      0 ≤ total → size = total + chunks_length cs → size < 2147483648 → cs.length ≤ fuel →
      ∃ src1 dest1,
        transfer_loop size fuel src dest total =
          (pull_events cs, src1, dest1, loop_exit.finished size) ∧
        dest1.is_ssh = 0 ∧ dest1.file.isSome = true := by
  intro cs
  induction cs with
  | nil => intro _ _ _ _ _ _ _ _ _ _ h; exact absurd rfl h
  | cons c cs ih =>
    intro fuel src dest ch g total hs hch hd hg _ hcs hreads hw h0 hsize hlt hfuel
    obtain ⟨n, rfl⟩ : ∃ n, fuel = n + 1 := ⟨fuel - 1, by simp at hfuel; omega⟩
    have hc := hcs c (List.mem_cons_self c cs)
    have hr0 : ch.reads 0 = some c := by simpa using hreads 0 (by simp)
    have htake : c.take 16384 = c := List.take_of_length_le hc.2
    have hcne : ¬ c.length = 0 := by omega
    simp only [chunks_length] at hsize
    have hti : to_int (total + (c.length : Int)) = total + (c.length : Int) := by
      apply to_int_of_range <;> omega
    have hstep : transfer_loop size (n + 1) src dest total =
        if total + (c.length : Int) < size then
          ([Event.scp_read 16384, Event.fwrite c] ++
            (transfer_loop size n { src with scp := some { ch with reads := shift ch.reads } }
              { dest with file := some (fwrite g c.length).2 } (total + (c.length : Int))).1,
            (transfer_loop size n { src with scp := some { ch with reads := shift ch.reads } }
              { dest with file := some (fwrite g c.length).2 } (total + (c.length : Int))).2)
        else
          ([Event.scp_read 16384, Event.fwrite c],
            { src with scp := some { ch with reads := shift ch.reads } },
            { dest with file := some (fwrite g c.length).2 },
            loop_exit.finished (total + (c.length : Int))) := by
      have hw1 : (fwrite g c.length).1 = 1 := by simp [fwrite, hcne, hw 0]
      simp only [transfer_loop, read_chunk, write_chunk]
      simp [hs, hch, hd, hg, hr0, htake, hw1, hti]
    rw [hstep]
    by_cases hnil : cs = []
    · subst hnil
      simp only [chunks_length] at hsize
      rw [if_neg (by omega)]
      refine ⟨{ src with scp := some { ch with reads := shift ch.reads } },
        { dest with file := some (fwrite g c.length).2 }, ?_, hd, rfl⟩
      have : total + (c.length : Int) = size := by omega
      rw [this]
      rfl
    · have hpos : 1 ≤ chunks_length cs := by
        cases cs with
        | nil => exact absurd rfl hnil
        | cons d ds =>
          have := (hcs d (by simp)).1
          simp only [chunks_length]
          omega
      rw [if_pos (by omega)]
      obtain ⟨s1, d1, hrun, hd1, hf1⟩ :=
        ih n { src with scp := some { ch with reads := shift ch.reads } }
          { dest with file := some (fwrite g c.length).2 } { ch with reads := shift ch.reads }
          (fwrite g c.length).2 (total + (c.length : Int)) hs rfl hd rfl hnil
          (fun x hx => hcs x (List.mem_cons_of_mem c hx))
          (fun i hi => by
            have := hreads (i + 1) (by simp; omega)
            simpa [shift] using this)
          (fun i => hw (i + 1)) (by omega) (by omega) hlt (by simp at hfuel; omega)
      refine ⟨s1, d1, ?_, hd1, hf1⟩
      rw [hrun]
      rfl

/-- The pull of one file into a local destination, for an announced size
below `2^31`: `k` directory requests, each denied, then the file request,
accepted once the destination handle is open and before the first read; the
chunks read are written in order; `do_copy` returns 0 and prints the size. -/
theorem pull_one_file (k fuel : Nat) (sys : Sys) (src dest : location) (ch : ssh_scp)
    (name : CString) (n mode : Nat) (g : FILE) (cs : List (List Byte))
    (hs : src.is_ssh ≠ 0) (hch : src.scp = some ch)
    (hdirs : ∀ i, i < k → ch.requests i = request.newdir)
    (hfile : ch.requests k = request.newfile name n mode)
    (hn1 : 1 ≤ n) (hn2 : n < 2147483648)
    (hcs : ∀ c ∈ cs, 1 ≤ c.length ∧ c.length ≤ 16384) (hsum : chunks_length cs = n)
    (hreads : ∀ i, i < cs.length → ch.reads i = cs[i]?)
    (hd : dest.is_ssh = 0)
    (hg : dest.file = some g ∨ (dest.file = none ∧ sys.fopen 0 name true = fopen_result.ok g))
    (hw : ∀ i, g.write_ok i = true) (hk : k < fuel) (hfuel : cs.length ≤ fuel) :
    (do_copy fuel sys src dest).out = outcome.returned 0 ∧
    (do_copy fuel sys src dest).trace = dir_denials k ++ [Event.pull_request] ++
      (if dest.file.isSome then [] else [Event.fopen name true]) ++
      [Event.accept_request] ++ pull_events cs ++ [Event.wrote n, Event.fclose] := by
  have hsk : ∀ i, i < k → (ch.requests i).skipped = true := fun i hi => by
    rw [hdirs i hi]; rfl
  have hres := resolve_remote k fuel src ch name n mode hs hch hsk hfile hk
  rw [poll_events_newdirs k ch.requests hdirs] at hres
  have hsz : to_int (n : Int) = (n : Int) := by apply to_int_of_range <;> omega
  rw [hsz] at hres
  have hne : cs ≠ [] := by
    intro h
    subst h
    simp [chunks_length] at hsum
    omega
  rcases hg with hg | ⟨hnone, hopen⟩
  · obtain ⟨s1, d1, hrun, hd1, hf1⟩ :=
      transfer_remote_local (n : Int) cs fuel
        { src with scp := some { ch with requests := fun i => ch.requests (i + k + 1) } }
        dest { ch with requests := fun i => ch.requests (i + k + 1) } g 0 hs rfl hd hg hne hcs
        hreads hw (le_refl 0) (by simp [hsum]) (by omega) hfuel
    have hrun2 : do_copy fuel sys src dest = ⟨outcome.returned 0, s1, { d1 with file := none },
        sys, dir_denials k ++ [Event.pull_request] ++ [] ++ [Event.accept_request] ++
          pull_events cs ++ [Event.wrote n, Event.fclose]⟩ := by
      simp [do_copy, hres, prepare, hd, hg, hs, hrun, finalize_local d1 _ hd1 hf1]
    rw [hrun2]
    simp [hg]
  · obtain ⟨s1, d1, hrun, hd1, hf1⟩ :=
      transfer_remote_local (n : Int) cs fuel
        { src with scp := some { ch with requests := fun i => ch.requests (i + k + 1) } }
        { dest with file := some g } { ch with requests := fun i => ch.requests (i + k + 1) }
        g 0 hs rfl hd rfl hne hcs hreads hw (le_refl 0) (by simp [hsum]) (by omega) hfuel
    simp only [hd] at hrun
    have hrun2 : do_copy fuel sys src dest = ⟨outcome.returned 0, s1, { d1 with file := none },
        { sys with fopen := shift sys.fopen },
        dir_denials k ++ [Event.pull_request] ++ [Event.fopen name true] ++
          [Event.accept_request] ++ pull_events cs ++ [Event.wrote n, Event.fclose]⟩ := by
      simp [do_copy, hres, prepare, hd, hnone, hopen, hs, hrun, finalize_local d1 _ hd1 hf1]
    rw [hrun2]
    simp [hnone]

/-- With a remote destination `do_copy` never calls `ssh_scp_accept_request`,
whatever the source and the answers of the peers. -/
theorem remote_destination_never_accepts (fuel : Nat) (sys : Sys) (src dest : location)
    (hd : dest.is_ssh ≠ 0) : Event.accept_request ∉ (do_copy fuel sys src dest).trace := by
  have hq : Event.accept_request ∉ (resolve fuel src).1 := by
    unfold resolve
    split
    · split <;> simp
    · split
      · simp
      · rename_i ch _
        exact (polling_quiet _ (pull_loop_events fuel ch)).2.2.2.1
  have hp : ∀ src1 size filename,
      Event.accept_request ∉ (prepare sys src1 dest size filename).1 := by
    intro src1 size filename
    unfold prepare
    rw [if_pos hd]
    split
    · simp
    · dsimp only
      split <;> simp
  rcases hres : resolve fuel src with ⟨es1, src1, res⟩
  rw [hres] at hq
  cases res with
  | ok size mode filename =>
    obtain ⟨tail, htr, htail⟩ :=
      do_copy_of_resolved fuel sys src dest es1 src1 size mode filename hres
    rw [htr]
    simp only [List.mem_append, not_or]
    exact ⟨⟨hq, hp src1 size filename⟩, (after_prepare_quiet tail htail).2.1⟩
  | fail => simpa [do_copy, hres] using hq
  | crashed => simpa [do_copy, hres] using hq
  | out_of_fuel => simpa [do_copy, hres] using hq

/-- On a peer that answers every poll with a result that is none of `NEWDIR`,
`NEWFILE`, `SSH_ERROR`, `do_copy` stays in the request loop: with fuel for
`fuel` turns it has polled `fuel` times and is still turning. -/
theorem do_copy_polls_forever (fuel : Nat) (sys : Sys) (src dest : location) (ch : ssh_scp)
    (hs : src.is_ssh ≠ 0) (hch : src.scp = some ch)
    (h : ∀ i, ∃ c, ch.requests i = request.other c) :
    (do_copy fuel sys src dest).out = outcome.out_of_fuel ∧
    (do_copy fuel sys src dest).trace = List.replicate fuel Event.pull_request := by
  obtain ⟨h1, h2⟩ := pull_loop_never fuel ch h
  have hres : resolve fuel src = (List.replicate fuel Event.pull_request,
      { src with scp := some (pull_loop fuel ch).2.1 }, resolved.out_of_fuel) := by
    simp [resolve, hs, hch, h1, h2]
  unfold do_copy
  rw [hres]
  exact ⟨rfl, rfl⟩

/-! ## Concrete runs -/

/-- An instance of C3: a file of three bytes read in chunks of two. -/
theorem local_copy_round_trip_witness :
    (do_copy 4 sys_files (local_at "d/a".toList (some short_reads_file))
      (local_at "out".toList (some (regular_file [])))).out = outcome.returned 0 ∧
    fwrite_data (do_copy 4 sys_files (local_at "d/a".toList (some short_reads_file))
      (local_at "out".toList (some (regular_file [])))).trace = [1, 2, 3] ∧
    wrote_totals (do_copy 4 sys_files (local_at "d/a".toList (some short_reads_file))
      (local_at "out".toList (some (regular_file [])))).trace = [3] ∧
    (short_reads_file.data = [] → ∀ d, Event.fwrite d ∉
      (do_copy 4 sys_files (local_at "d/a".toList (some short_reads_file))
        (local_at "out".toList (some (regular_file [])))).trace) :=
  local_copy_round_trip 4 sys_files (local_at "d/a".toList (some short_reads_file))
    (local_at "out".toList (some (regular_file []))) short_reads_file (regular_file [])
    rfl rfl rfl (Or.inl rfl) rfl (by decide) (fun _ => by simp [short_reads_file]) (fun _ => rfl)
    (by decide)

/-- C4 at a failing input: the peer announces `a.txt` of size `2^31`; the size
stored in the `int` is `-2^31`, the loop makes one turn, and `do_copy` returns
0 having read one chunk and printed a total of 5, not `2^31`. -/
theorem pull_size_truncated :
    to_int 2147483648 = -2147483648 ∧
    (do_copy 10 sys_files (remote_at "x".toList (some big_peer))
      (local_at "out".toList (some (regular_file [])))).out = outcome.returned 0 ∧
    (do_copy 10 sys_files (remote_at "x".toList (some big_peer))
      (local_at "out".toList (some (regular_file [])))).trace =
      [Event.pull_request, Event.accept_request, Event.scp_read 16384,
        Event.fwrite hello, Event.wrote 5, Event.fclose] :=
  ⟨by decide, by decide, by decide⟩

/-- An instance of C5: the peer of the spec and a destination that does not
open. -/
theorem deny_when_open_fails_witness :
    (do_copy 2 sys_closed (remote_at "x".toList (some hello_peer))
      (local_at "out".toList none)).out = outcome.returned (-1) ∧
    (do_copy 2 sys_closed (remote_at "x".toList (some hello_peer))
      (local_at "out".toList none)).trace = poll_events hello_peer.requests 1 ++
      [Event.pull_request, Event.fopen "a.txt".toList true, Event.deny_request cannot_open] ∧
    (do_copy 2 sys_closed (remote_at "x".toList (some hello_peer))
      (local_at "out".toList none)).trace.count (Event.deny_request cannot_open) = 1 ∧
    Event.accept_request ∉ (do_copy 2 sys_closed (remote_at "x".toList (some hello_peer))
      (local_at "out".toList none)).trace ∧
    scp_reads (do_copy 2 sys_closed (remote_at "x".toList (some hello_peer))
      (local_at "out".toList none)).trace = 0 ∧
    chunks_written (do_copy 2 sys_closed (remote_at "x".toList (some hello_peer))
      (local_at "out".toList none)).trace = [] :=
  deny_when_open_fails 1 2 sys_closed (remote_at "x".toList (some hello_peer))
    (local_at "out".toList none) hello_peer "a.txt".toList 5 420 (by decide) rfl
    (fun i hi => by
      have h0 : i = 0 := by omega
      subst h0
      rfl)
    rfl rfl rfl (fun g h => fopen_result.noConfusion h) (by decide)

/-- C6 refuted: a local source `d/a` pushed to a remote destination is
announced under the name `d/a`, which is not its final component `a`. -/
theorem push_name_not_basename :
    (do_copy 10 sys_files (local_at "d/a".toList (some (regular_file [1, 2, 3])))
      (remote_at "out".toList (some (channel (fun _ => request.error) (fun _ => none))))).out
      = outcome.returned 0 ∧
    (do_copy 10 sys_files (local_at "d/a".toList (some (regular_file [1, 2, 3])))
      (remote_at "out".toList (some (channel (fun _ => request.error) (fun _ => none))))).trace
      = [Event.fstat, Event.push_file "d/a".toList 3 420, Event.fread 16384,
          Event.scp_write [1, 2, 3], Event.wrote 3, Event.scp_close] ∧
    ssh_basename "d/a".toList = "a".toList ∧
    Event.push_file (ssh_basename "d/a".toList) 3 420 ∉
      (do_copy 10 sys_files (local_at "d/a".toList (some (regular_file [1, 2, 3])))
        (remote_at "out".toList (some (channel (fun _ => request.error) (fun _ => none))))).trace :=
  ⟨by decide, by decide, by decide, by decide⟩

/-- An instance of C6 as amended: the local source `d/a` of 3 bytes. -/
theorem push_announcement_witness :
    push_calls (do_copy 10 sys_files (local_at "d/a".toList (some (regular_file [1, 2, 3])))
      (remote_at "out".toList (some (channel (fun _ => request.error) (fun _ => none))))).trace
      = [("d/a".toList, ((3 : Nat) : Int), 420)] ∧
    ∃ pre post,
      (do_copy 10 sys_files (local_at "d/a".toList (some (regular_file [1, 2, 3])))
        (remote_at "out".toList (some (channel (fun _ => request.error) (fun _ => none))))).trace
        = pre ++ Event.push_file "d/a".toList ((3 : Nat) : Int) 420 :: post ∧
      chunks_written pre = [] :=
  push_announcement 10 sys_files (local_at "d/a".toList (some (regular_file [1, 2, 3])))
    (remote_at "out".toList (some (channel (fun _ => request.error) (fun _ => none))))
    (channel (fun _ => request.error) (fun _ => none)) 3 (by decide) rfl (by decide)
    (Or.inl ⟨rfl, regular_file [1, 2, 3], rfl, rfl⟩)

/-- C7 at a failing input: a remote source that announces `a.txt` copied to a
remote destination.  `do_copy` reads from the source channel and returns 0
without any call of `ssh_scp_accept_request`. -/
theorem remote_to_remote_reads_unaccepted :
    (do_copy 10 sys_files (remote_at "d/x".toList (some hello_peer))
      (remote_at "out".toList (some (channel (fun _ => request.error) (fun _ => none))))).out
      = outcome.returned 0 ∧
    (do_copy 10 sys_files (remote_at "d/x".toList (some hello_peer))
      (remote_at "out".toList (some (channel (fun _ => request.error) (fun _ => none))))).trace
      = [Event.pull_request, Event.deny_request not_recursive,
          Event.pull_request, Event.push_file "d/x".toList 5 420, Event.scp_read 16384,
          Event.scp_write hello, Event.wrote 5, Event.scp_close] ∧
    Event.accept_request ∉
      (do_copy 10 sys_files (remote_at "d/x".toList (some hello_peer))
        (remote_at "out".toList (some (channel (fun _ => request.error) (fun _ => none))))).trace ∧
    scp_reads (do_copy 10 sys_files (remote_at "d/x".toList (some hello_peer))
      (remote_at "out".toList (some (channel (fun _ => request.error) (fun _ => none))))).trace
      = 1 :=
  ⟨by decide, by decide, by decide, by decide⟩

/-- C9 at a failing input: on a peer that answers every poll with end of
requests the request loop of `do_copy` never ends: with fuel for `n` turns it
has polled `n` times and is still turning; and after a first end of requests
it polls the channel again (here the second poll answers `SSH_ERROR`, and
`do_copy` returns -1). -/
theorem eof_keeps_polling :
    (∀ fuel, (do_copy fuel sys_files (remote_at "x".toList (some eof_peer))
        (local_at "out".toList (some (regular_file [])))).out = outcome.out_of_fuel ∧
      (do_copy fuel sys_files (remote_at "x".toList (some eof_peer))
        (local_at "out".toList (some (regular_file [])))).trace =
        List.replicate fuel Event.pull_request) ∧
    (do_copy 10 sys_files (remote_at "x".toList (some eof_then_error_peer))
      (local_at "out".toList (some (regular_file [])))).out = outcome.returned (-1) ∧
    (do_copy 10 sys_files (remote_at "x".toList (some eof_then_error_peer))
      (local_at "out".toList (some (regular_file [])))).trace =
      [Event.pull_request, Event.pull_request] := by
  exact ⟨fun fuel => do_copy_polls_forever fuel sys_files _ _ eof_peer (by decide) rfl
    (fun _ => ⟨3, rfl⟩), by decide, by decide⟩

/-- An instance of C10: a file of `2^31` bytes copied to a local and to a
remote destination, and a file of 3 bytes. -/
theorem size_held_in_int_witness :
    ((resolve 1 (local_at "big".toList (some huge_file))).2.2 =
        resolved.ok (to_int huge_file.st_size) (to_int huge_file.st_mode)
          (ssh_basename (local_at "big".toList (some huge_file)).path) ∧
      to_int huge_file.st_size = (huge_file.st_size : Int) - 4294967296 ∧
      to_int huge_file.st_size < 0 ∧
      (do_copy 1 sys_files (local_at "big".toList (some huge_file))
        (local_at "out".toList (some (regular_file [])))).out = outcome.returned 0 ∧
      (do_copy 1 sys_files (local_at "big".toList (some huge_file))
        (local_at "out".toList (some (regular_file [])))).trace.count (Event.fread 16384) = 1 ∧
      chunks_written (do_copy 1 sys_files (local_at "big".toList (some huge_file))
        (local_at "out".toList (some (regular_file [])))).trace = [(fread huge_file 16384).1] ∧
      1 ≤ (fread huge_file 16384).1.length ∧ (fread huge_file 16384).1.length ≤ 16384 ∧
      wrote_totals (do_copy 1 sys_files (local_at "big".toList (some huge_file))
        (local_at "out".toList (some (regular_file [])))).trace =
        [((fread huge_file 16384).1.length : Int)] ∧
      (fread huge_file 16384).1.length < huge_file.st_size) ∧
    push_calls (do_copy 1 sys_files (local_at "big".toList (some huge_file))
      (remote_at "out".toList (some (channel (fun _ => request.error) (fun _ => none))))).trace =
      [((local_at "big".toList (some huge_file)).path, to_int huge_file.st_size, 420)] ∧
    to_int (regular_file [1, 2, 3]).st_size = (regular_file [1, 2, 3]).st_size :=
  ⟨⟨(size_held_in_int 1 sys_files (local_at "big".toList (some huge_file))
        (local_at "out".toList (some (regular_file []))) huge_file rfl rfl).1,
      ((size_held_in_int 1 sys_files (local_at "big".toList (some huge_file))
        (local_at "out".toList (some (regular_file []))) huge_file rfl rfl).2.2.2.2.2
          (by decide) (by decide)).1,
      ((size_held_in_int 1 sys_files (local_at "big".toList (some huge_file))
        (local_at "out".toList (some (regular_file []))) huge_file rfl rfl).2.2.2.2.2
          (by decide) (by decide)).2.1,
      ((size_held_in_int 1 sys_files (local_at "big".toList (some huge_file))
        (local_at "out".toList (some (regular_file []))) huge_file rfl rfl).2.2.2.2.2
          (by decide) (by decide)).2.2 (List.length_replicate _ _) (by decide)
          (Or.inl ⟨rfl, regular_file [], Or.inl rfl, rfl⟩) Nat.zero_lt_one⟩,
    (size_held_in_int 1 sys_files (local_at "big".toList (some huge_file))
      (remote_at "out".toList (some (channel (fun _ => request.error) (fun _ => none))))
      huge_file rfl rfl).2.2.2.1 (channel (fun _ => request.error) (fun _ => none))
      (by decide) rfl,
    (size_held_in_int 1 sys_files (local_at "small".toList (some (regular_file [1, 2, 3])))
      (local_at "out".toList (some (regular_file []))) (regular_file [1, 2, 3]) rfl rfl).2.2.2.2.1
      (by decide)⟩

end LibsshScp
